import Mathlib

/-!
Shallow embedding of `src/LuaNLopt.cpp`, the Lua binding layer for the NLopt
nonlinear-optimization library.

Modelling conventions:
* Lua numbers (C `double`) are an abstract type `D` with a distinguished
  element `z` standing for the C literal `0.0`; the binding performs no
  arithmetic on them, only copies, so every theorem is generic in `D` and
  witnesses instantiate `D := Int`.
* A Lua sequence (table used as an array) is a `List D`; reading index
  `i+1` of a table yields `nil` past the end and `lua_tonumber(nil) = 0`,
  which is `List.getD i z`.  Writing indices `1..k` into an existing table
  leaves any entries past `k` untouched (`overwrite`).
* The Lua registry (`LUA_REGISTRYINDEX` together with `luaL_ref`/`luaL_unref`)
  is a `Registry`: a list of slots, each holding an optional closure record.
  `luaL_ref` allocates a token unused by any live reference; we model it as
  appending at the end, which preserves exactly the guarantee the code relies
  on (the fresh token differs from every live token).
* A host callable is an opaque function that either returns normally with the
  values the C code reads back afterwards, or raises a Lua error
  (`CbResult.err` / `MCbResult.err`, the nonzero `lua_pcall` outcome).
* C functions that raise Lua errors (`luaL_argerror`, `luaL_error`) are
  embedded with `Except`: raising never returns to the caller.
-/

namespace LuaNLopt

/-- One marshaling write loop `for i in 0..k-1: t[i+1] := new[i]` applied to an
existing table `old`: entries past `k` keep their previous values. -/
def overwrite {D : Type} (old new : List D) : List D :=
  new ++ old.drop new.length

/-- One marshaling read loop `for i in 0..n-1: buf[i] := tonumber(t[i+1])`:
a missing entry reads as `nil`, and `lua_tonumber(nil)` is `0` (here `z`). -/
def readSeq {D : Type} (z : D) (n : Nat) (l : List D) : List D :=
  (List.range n).map (fun i => l.getD i z)

/-- Outcome of `lua_pcall` on a scalar callback (`func` trampoline): either the
callback returned (the scalar result converted by `lua_tonumber`, and the
contents of the `grad` scratch table after the call), or it raised an error. -/
inductive CbResult (D : Type) where
  | ok (ret : D) (gradOut : List D)
  | err

/-- A host-language scalar callable as observed by the trampoline: arguments
are `(n, x sequence, grad sequence or nil, user data)`. -/
def HostFn (D V : Type) : Type :=
  Nat → List D → Option (List D) → V → CbResult D

/-- Outcome of `lua_pcall` on a vector-constraint callback (`mfunc`
trampoline): the contents of the `result` and `grad` scratch tables after the
call, or a raised error. -/
inductive MCbResult (D : Type) where
  | ok (resultOut : List D) (gradOut : List D)
  | err

/-- A host-language vector-constraint callable: arguments are
`(m, result sequence, n, x sequence, grad sequence or nil, user data)`. -/
def HostMFn (D V : Type) : Type :=
  Nat → List D → Nat → List D → Option (List D) → V → MCbResult D

/-- The registered closure record: the Lua table created at registration time
holding fields `f` (the callable, `none` when the slot does not hold a
function), `f_data` (the user-data value), and the scratch sequence slots
`x`, `grad`, `result` (each `none` while the field is not a table). -/
structure LuaRecord (F D V : Type) where
  f : Option F
  f_data : V
  x : Option (List D)
  grad : Option (List D)
  result : Option (List D)

/-- The C `callback_context`: the durable registry token (`ref`) produced by
`luaL_ref` (the shared `lua_State` pointer is ambient and not modelled). -/
structure Ctx where
  ref : Nat
deriving DecidableEq

/-- The Lua registry restricted to closure records: slot `t` holds the record
whose token is `t`; a freed slot holds `none`. -/
abbrev Registry (F D V : Type) : Type := List (Option (LuaRecord F D V))

/-- The fresh table built by `munge_on_copy`: only the fields `f` and `f_data`
are copied from the source record (shared references); the scratch slots of
the new table are empty. -/
def copyRecord {F D V : Type} (rec : LuaRecord F D V) : LuaRecord F D V :=
  ⟨rec.f, rec.f_data, none, none, none⟩

/-- `munge_on_destroy` (src/LuaNLopt.cpp:338): on a non-null context,
`luaL_unref` frees the token's registry slot and the context struct is
deleted; a null context is returned unchanged. -/
def munge_on_destroy {F D V : Type} (reg : Registry F D V) (ctx : Option Ctx) :
    Registry F D V :=
  match ctx with
  | none => reg
  | some c => reg.set c.ref none

/-- `munge_on_copy` (src/LuaNLopt.cpp:349): on a non-null context, allocate a
fresh context, create a new record table, register it under a fresh durable
token (`luaL_ref`), and copy the `f` and `f_data` references of the source
record into it; a null context yields a null context. -/
def munge_on_copy {F D V : Type} (reg : Registry F D V) (ctx : Option Ctx) :
    Registry F D V × Option Ctx :=
  match ctx with
  | none => (reg, none)
  | some c =>
      (reg ++ [(reg.getD c.ref none).map copyRecord], some ⟨reg.length⟩)

/-- Modelled from the spec: the native library applies the installed destroy
munge once, in order, to each registered callback's user pointer (objective
and constraints) when the handle is destroyed or a constraint list is
cleared.  Also returns the trace of tokens released, in order. -/
def destroyList {F D V : Type} (reg : Registry F D V) :
    List (Option Ctx) → Registry F D V × List Nat
  | [] => (reg, [])
  | c :: cs =>
      let rest := destroyList (munge_on_destroy reg c) cs
      (rest.1, (match c with | none => [] | some cx => [cx.ref]) ++ rest.2)

/-- Modelled from the spec: the native library applies the installed copy
munge once, in order, to each registered callback's user pointer when a
handle is duplicated, storing the returned pointers in the new handle. -/
def copyList {F D V : Type} (reg : Registry F D V) :
    List (Option Ctx) → Registry F D V × List (Option Ctx)
  | [] => (reg, [])
  | c :: cs =>
      let p := munge_on_copy reg c
      let rest := copyList p.1 cs
      (rest.1, p.2 :: rest.2)

/-- The native optimizer object held by `nlopt_opt_holder`, as far as the
binding observes it: algorithm and dimension (immutable after creation), the
registered callback user pointers (one objective slot, the inequality and
equality constraint lists), and the munge hooks installed by
`nlopt_set_munge`. -/
structure NLHandle (F D V : Type) where
  algorithm : Int
  dim : Nat
  objective : Option Ctx
  ineq : List (Option Ctx)
  eq : List (Option Ctx)
  mungeDestroy : Registry F D V → Option Ctx → Registry F D V
  mungeCopy : Registry F D V → Option Ctx → Registry F D V × Option Ctx

/-- All callback user pointers registered with a handle. -/
def ctxList {F D V : Type} (h : NLHandle F D V) : List (Option Ctx) :=
  h.objective :: (h.ineq ++ h.eq)

/-- The registry tokens of a list of callback user pointers. -/
def refsOf (cs : List (Option Ctx)) : List Nat :=
  cs.filterMap (fun c => c.map Ctx.ref)

/-- Modelled from the spec: `nlopt_copy` duplicates the native state and
applies the installed copy munge to every registered callback user pointer of
the source, attaching the returned pointers to the new handle (spec 4.3
cloning policy; invoked by `copy`, src/LuaNLopt.cpp:122). -/
def nlopt_copy_model {F D V : Type} (reg : Registry F D V) (h : NLHandle F D V) :
    Registry F D V × NLHandle F D V :=
  let o := munge_on_copy reg h.objective
  let i := copyList o.1 h.ineq
  let e := copyList i.1 h.eq
  (e.1, ⟨h.algorithm, h.dim, o.2, i.2, e.2, h.mungeDestroy, h.mungeCopy⟩)

/-- Modelled from the spec: `nlopt_destroy` applies the installed destroy
munge to every registered callback user pointer (invoked by the `__gc`
finalizer `finalize_nlopt_opt_s`, src/LuaNLopt.cpp:108). -/
def nlopt_destroy_model {F D V : Type} (reg : Registry F D V)
    (h : NLHandle F D V) : Registry F D V × List Nat :=
  destroyList reg (ctxList h)

/-- `remove_inequality_constraints` (src/LuaNLopt.cpp:489): the native call
clears the inequality constraint list, applying the destroy munge to each of
its callback user pointers. -/
def remove_inequality_constraints_model {F D V : Type} (reg : Registry F D V)
    (h : NLHandle F D V) :
    (Registry F D V × List Nat) × NLHandle F D V :=
  (destroyList reg h.ineq,
   ⟨h.algorithm, h.dim, h.objective, [], h.eq, h.mungeDestroy, h.mungeCopy⟩)

/-- `remove_equality_constraints` (src/LuaNLopt.cpp:496): the native call
clears the equality constraint list, applying the destroy munge to each of
its callback user pointers. -/
def remove_equality_constraints_model {F D V : Type} (reg : Registry F D V)
    (h : NLHandle F D V) :
    (Registry F D V × List Nat) × NLHandle F D V :=
  (destroyList reg h.eq,
   ⟨h.algorithm, h.dim, h.objective, h.ineq, [], h.mungeDestroy, h.mungeCopy⟩)

/-- The candidate sequence passed to a scalar callback by `func`
(src/LuaNLopt.cpp:260): the scratch table `t.x` (a fresh empty table when the
slot is not a table) with entries `1..n` overwritten by the native candidate
vector. -/
def funcXArg {F D V : Type} (z : D) (rec : LuaRecord F D V) (n : Nat)
    (x : List D) : List D :=
  overwrite (rec.x.getD []) (readSeq z n x)

/-- The gradient argument passed to a scalar callback by `func`
(src/LuaNLopt.cpp:278): when the native side supplies a gradient buffer, the
scratch table `t.grad` with entries `1..n` overwritten by the buffer; when it
supplies none, `nil` (and the scratch slot `t.grad` is set to `nil`). -/
def funcGradArg {F D V : Type} (z : D) (rec : LuaRecord F D V) (n : Nat)
    (grad : Option (List D)) : Option (List D) :=
  match grad with
  | none => none
  | some g => some (overwrite (rec.grad.getD []) (readSeq z n g))

/-- The tail of the scalar trampoline `func` after `lua_pcall` returns
(src/LuaNLopt.cpp:307): on a nonzero (error) outcome, pop and return `0.0`
with the native gradient buffer untouched; on a zero outcome, convert the
returned value, and if the native side supplied a gradient buffer copy
entries `1..n` of the (possibly mutated) `t.grad` table back into it. -/
def funcFinish {D V : Type} (z : D) (n : Nat) (grad : Option (List D))
    (f : Option (HostFn D V)) (fd : V) (xs : List D) (gArg : Option (List D))
    (r0 : Option (List D)) (res : CbResult D) :
    D × Option (List D) × Option (LuaRecord (HostFn D V) D V) :=
  match res with
  | .err => (z, grad, some ⟨f, fd, some xs, gArg, r0⟩)
  | .ok ret gradOut =>
      match grad with
      | none => (ret, none, some ⟨f, fd, some xs, gArg, r0⟩)
      | some _ =>
          (ret, some (readSeq z n gradOut), some ⟨f, fd, some xs, some gradOut, r0⟩)

/-- The scalar trampoline `func` (src/LuaNLopt.cpp:239).  Returns the scalar
result handed to the native caller, the native gradient buffer after the
call, and the closure record after the call.  A null `f_data` or a
non-function `t.f` yields `0.0` with the native gradient buffer untouched
(the early returns before any marshaling); otherwise the candidate and
gradient arguments are marshalled into the scratch slots, the host callable
is invoked through `lua_pcall`, and `funcFinish` handles the outcome. -/
def func {D V : Type} (z : D) (n : Nat) (x : List D) (grad : Option (List D))
    (fdata : Option (LuaRecord (HostFn D V) D V)) :
    D × Option (List D) × Option (LuaRecord (HostFn D V) D V) :=
  match fdata with
  | none => (z, grad, none)
  | some rec =>
      match rec.f with
      | none => (z, grad, some rec)
      | some cb =>
          funcFinish z n grad rec.f rec.f_data (funcXArg z rec n x)
            (funcGradArg z rec n grad) rec.result
            (cb n (funcXArg z rec n x) (funcGradArg z rec n grad) rec.f_data)

/-- The vector-constraint trampoline `mfunc` (src/LuaNLopt.cpp:503).  Returns
the native results buffer after the call, the native gradient buffer after
the call, and the closure record after the call.  Note the write-back of the
gradient (src/LuaNLopt.cpp:610) loops over `n` entries only, although the
fill loop (src/LuaNLopt.cpp:577) and the function's own comment use `m*n`:
entries `n..m*n-1` of the native gradient buffer keep their prior values. -/
def mfunc {D V : Type} (z : D) (m : Nat) (result : List D) (n : Nat)
    (x : List D) (grad : Option (List D))
    (fdata : Option (LuaRecord (HostMFn D V) D V)) :
    List D × Option (List D) × Option (LuaRecord (HostMFn D V) D V) :=
  match fdata with
  | none => (result, grad, none)
  | some rec =>
      match rec.f with
      | none => (result, grad, some rec)
      | some cb =>
          let rs := overwrite (rec.result.getD []) (readSeq z m result)
          let xs := overwrite (rec.x.getD []) (readSeq z n x)
          let gArg : Option (List D) :=
            match grad with
            | none => none
            | some g => some (overwrite (rec.grad.getD []) (readSeq z (n * m) g))
          let rec1 : LuaRecord (HostMFn D V) D V :=
            ⟨rec.f, rec.f_data, some xs, gArg, some rs⟩
          match cb m rs n xs gArg rec.f_data with
          | .err => (result, grad, some rec1)
          | .ok rOut gOut =>
              match grad with
              | none =>
                  (readSeq z m rOut, none,
                   some ⟨rec.f, rec.f_data, some xs, none, some rOut⟩)
              | some g =>
                  (readSeq z m rOut, some (readSeq z n gOut ++ g.drop n),
                   some ⟨rec.f, rec.f_data, some xs, some gOut, some rOut⟩)

/-- The host-visible errors `create` can raise, in the order the checks occur
in the source. -/
inductive CreateErr where
  | argErrorAlgorithm
  | argErrorDimension
  | outOfMemory
deriving DecidableEq

/-- `create` (src/LuaNLopt.cpp:69): check the algorithm id against
`[0, NLOPT_NUM_ALGORITHMS)` and the dimension against negativity (both
`luaL_argerror`, before any native call), then call `nlopt_create`
(allocation outcome modelled by `allocOk`); a null result raises the
out-of-memory error with no handle; on success `nlopt_set_munge` installs
`munge_on_destroy` and `munge_on_copy` and a fresh wrapper is returned. -/
def create (F D V : Type) (numAlgorithms : Int) (allocOk : Bool)
    (algorithm : Int) (n : Int) : Except CreateErr (NLHandle F D V) :=
  if algorithm < 0 ∨ numAlgorithms ≤ algorithm then
    .error .argErrorAlgorithm
  else if n < 0 then
    .error .argErrorDimension
  else if allocOk then
    .ok ⟨algorithm, n.toNat, none, [], [], munge_on_destroy, munge_on_copy⟩
  else
    .error .outOfMemory

/-- A Lua argument as the tolerance-argument checks observe it: absent
(`LUA_TNONE`), `nil`, a table (with its array entries), or any other value. -/
inductive LuaArg (D : Type) where
  | not_given
  | nil
  | table (entries : List D)
  | other
deriving DecidableEq

/-- `lua_isnil`: true exactly for a `nil` value (an absent argument is
`LUA_TNONE`, not `nil`). -/
def luaIsNil {D : Type} : LuaArg D → Bool
  | .nil => true
  | _ => false

/-- `lua_istable`. -/
def luaIsTable {D : Type} : LuaArg D → Bool
  | .table _ => true
  | _ => false

/-- Host-visible Lua errors raised inside the vector-constraint registration
functions. -/
inductive LuaErr where
  | argError (arg : Nat) (msg : String)
  | runtimeError
deriving DecidableEq

/-- `add_inequality_mconstraint` (src/LuaNLopt.cpp:631).  The tolerance
argument (arg 5) is rejected by `luaL_argerror` when the condition
`!lua_isnil(L,5) && lua_istable(L,5)` holds — i.e. exactly when a table is
passed.  Otherwise a closure record is registered under a fresh token and the
native call receives `mfunc`, the context, and either a null tolerance
pointer (`nil` argument) or the marshalled tolerance values read from arg 5
(`lua_gettable` on a non-table value raises a runtime error; the registry
reference leaked on that error path is not modelled).  Returns the updated
registry, the updated handle, and the tolerance values passed natively. -/
def add_inequality_mconstraint {F D V : Type} (z : D) (reg : Registry F D V)
    (h : NLHandle F D V) (m : Nat) (fn : F) (ud : V) (tolArg : LuaArg D) :
    Except LuaErr (Registry F D V × NLHandle F D V × Option (List D)) :=
  if (!(luaIsNil tolArg)) && luaIsTable tolArg then
    .error (.argError 5 "expecting table or nil")
  else
    let reg1 : Registry F D V := reg ++ [some ⟨some fn, ud, none, none, none⟩]
    let ctx : Ctx := ⟨reg.length⟩
    let h1 : NLHandle F D V :=
      ⟨h.algorithm, h.dim, h.objective, h.ineq ++ [some ctx], h.eq,
       h.mungeDestroy, h.mungeCopy⟩
    if luaIsNil tolArg then
      .ok (reg1, h1, none)
    else
      match tolArg with
      | .table ts => .ok (reg1, h1, some (readSeq z m ts))
      | _ => .error .runtimeError

/-- `add_equality_mconstraint` (src/LuaNLopt.cpp:676): identical to the
inequality variant but the closure joins the equality constraint list. -/
def add_equality_mconstraint {F D V : Type} (z : D) (reg : Registry F D V)
    (h : NLHandle F D V) (m : Nat) (fn : F) (ud : V) (tolArg : LuaArg D) :
    Except LuaErr (Registry F D V × NLHandle F D V × Option (List D)) :=
  if (!(luaIsNil tolArg)) && luaIsTable tolArg then
    .error (.argError 5 "expecting table or nil")
  else
    let reg1 : Registry F D V := reg ++ [some ⟨some fn, ud, none, none, none⟩]
    let ctx : Ctx := ⟨reg.length⟩
    let h1 : NLHandle F D V :=
      ⟨h.algorithm, h.dim, h.objective, h.ineq, h.eq ++ [some ctx],
       h.mungeDestroy, h.mungeCopy⟩
    if luaIsNil tolArg then
      .ok (reg1, h1, none)
    else
      match tolArg with
      | .table ts => .ok (reg1, h1, some (readSeq z m ts))
      | _ => .error .runtimeError

/-- The vector-valued configuration state of a native optimizer as observed
through the bounds/tolerance setters and getters.  Modelled from the spec:
the native setters copy the supplied `dim` doubles into the object, the
getters copy them back out, unchanged. -/
structure NativeVec (D : Type) where
  dim : Nat
  lb : List D
  ub : List D
  xtolAbs : List D

/-- `set_lower_bounds` (src/LuaNLopt.cpp:153): read entries `1..dim` of the
argument table and hand them to the native setter; returns the native status
code (`stat`, opaque here) and the updated native state. -/
def set_lower_bounds {D : Type} (z : D) (stat : Int) (st : NativeVec D)
    (tbl : List D) : Int × NativeVec D :=
  (stat, ⟨st.dim, readSeq z st.dim tbl, st.ub, st.xtolAbs⟩)

/-- `get_lower_bounds` (src/LuaNLopt.cpp:203): the native getter fills a
fresh buffer of length `dim`, which is copied element by element into a fresh
table; returns the native status code and the table. -/
def get_lower_bounds {D : Type} (z : D) (stat : Int) (st : NativeVec D) :
    Int × List D :=
  (stat, readSeq z st.dim st.lb)

/-- `set_upper_bounds` (src/LuaNLopt.cpp:170). -/
def set_upper_bounds {D : Type} (z : D) (stat : Int) (st : NativeVec D)
    (tbl : List D) : Int × NativeVec D :=
  (stat, ⟨st.dim, st.lb, readSeq z st.dim tbl, st.xtolAbs⟩)

/-- `get_upper_bounds` (src/LuaNLopt.cpp:218). -/
def get_upper_bounds {D : Type} (z : D) (stat : Int) (st : NativeVec D) :
    Int × List D :=
  (stat, readSeq z st.dim st.ub)

/-- `set_xtol_abs` (src/LuaNLopt.cpp:781). -/
def set_xtol_abs {D : Type} (z : D) (stat : Int) (st : NativeVec D)
    (tbl : List D) : Int × NativeVec D :=
  (stat, ⟨st.dim, st.lb, st.ub, readSeq z st.dim tbl⟩)

/-- `get_xtol_abs` (src/LuaNLopt.cpp:798). -/
def get_xtol_abs {D : Type} (z : D) (stat : Int) (st : NativeVec D) :
    Int × List D :=
  (stat, readSeq z st.dim st.xtolAbs)

/-- `optimize` (src/LuaNLopt.cpp:873): read entries `1..n` of the argument
table into a buffer, run the native optimizer (opaque `natOpt`, returning the
status code, the mutated buffer, and the final objective value), push the
status code then the objective value (exactly two return values, in that
order), and write the buffer back into entries `1..n` of the same table. -/
def optimize {D : Type} (z : D) (natOpt : List D → Int × List D × D) (n : Nat)
    (tbl : List D) : (Int × D) × List D :=
  let x := readSeq z n tbl
  let r := natOpt x
  ((r.1, r.2.2), overwrite tbl (readSeq z n r.2.1))

/-- `srand` (src/LuaNLopt.cpp:36): a negative seed raises
`luaL_argerror(L, 1, "expecting unsigned long")`; otherwise the seed is cast
to `unsigned long` and forwarded to `nlopt_srand`, and the Lua function
returns zero values (the second component counts the Lua return values). -/
def srand (i : Int) : Except LuaErr (Nat × Nat) :=
  if i < 0 then .error (.argError 1 "expecting unsigned long")
  else .ok (i.toNat, 0)

/-- Correspondence between a source callback pointer (resolved in registry
`regA`) and a duplicated callback pointer (resolved in registry `regB`):
null pointers correspond to null pointers, and a duplicated token's slot
holds exactly the `copyRecord` image (callable and user-data references
copied, scratch slots fresh) of the source token's slot. -/
def copiedFrom {F D V : Type} (regA regB : Registry F D V)
    (c cNew : Option Ctx) : Prop :=
  match c, cNew with
  | none, none => True
  | some cx, some cy =>
      regB.getD cy.ref none = (regA.getD cx.ref none).map copyRecord
  | _, _ => False

/-! Concrete instances used by the witnesses (`D := Int`, `V := Int`,
vector-constraint callables and registries over `F := Unit`). -/

/-- A scalar host callable that unconditionally raises an error. -/
def cbErr : HostFn Int Int := fun _ _ _ _ => CbResult.err

/-- A registered record holding `cbErr`, with stale scratch slots. -/
def recErr : LuaRecord (HostFn Int Int) Int Int :=
  ⟨some cbErr, 7, some [4], some [8, 8], none⟩

/-- A scalar host callable that returns `5` and leaves `[1, 2]` in the
gradient table. -/
def cbOk : HostFn Int Int := fun _ _ _ _ => CbResult.ok 5 [1, 2]

/-- A registered record holding `cbOk`, with stale scratch slots. -/
def recOk : LuaRecord (HostFn Int Int) Int Int :=
  ⟨some cbOk, 7, some [9], some [8, 8], none⟩

/-- A two-output vector-constraint callable writing results `[1, 2]` and
gradient entries `[5, 6]`. -/
def mcbW : HostMFn Int Int := fun _ _ _ _ _ _ => MCbResult.ok [1, 2] [5, 6]

/-- A registered record holding `mcbW`. -/
def mrecW : LuaRecord (HostMFn Int Int) Int Int := ⟨some mcbW, 0, none, none, none⟩

/-- A handle with no attached closures. -/
def hEmpty : NLHandle Unit Int Int :=
  ⟨3, 2, none, [], [], munge_on_destroy, munge_on_copy⟩

/-- A registry holding three closure records at tokens `0`, `1`, `2`. -/
def regW : Registry Unit Int Int :=
  [some ⟨some (), 10, none, none, none⟩,
   some ⟨some (), 11, none, none, none⟩,
   some ⟨some (), 12, none, none, none⟩]

/-- A handle owning tokens `0` (objective), `1` (inequality constraint) and
`2` (equality constraint) of `regW`. -/
def hW : NLHandle Unit Int Int :=
  ⟨3, 2, some ⟨0⟩, [some ⟨1⟩], [some ⟨2⟩], munge_on_destroy, munge_on_copy⟩

/-- A concrete native optimizer outcome: status `7`, solution `[100, 200]`,
objective value `42`. -/
def natEx : List Int → Int × List Int × Int := fun _ => (7, [100, 200], 42)

/-- A concrete native vector-configuration state of dimension 2. -/
def stW : NativeVec Int := ⟨2, [0, 0], [0, 0], [0, 0]⟩

/-! ### Helper lemmas about the marshaling combinators -/

theorem readSeq_length {D : Type} (z : D) (n : Nat) (l : List D) :
    (readSeq z n l).length = n := by
  simp [readSeq]

theorem readSeq_self {D : Type} (z : D) (l : List D) :
    readSeq z l.length l = l := by
  induction l with
  | nil => rfl
  | cons a t ih =>
      show (List.range (t.length + 1)).map (fun i => (a :: t).getD i z) = a :: t
      rw [List.range_succ_eq_map, List.map_cons, List.map_map]
      have hc : ((fun i => (a :: t).getD i z) ∘ Nat.succ) = fun i => t.getD i z := by
        funext i
        simp [Nat.succ_eq_add_one]
      rw [hc, List.getD_cons_zero]
      exact congrArg (List.cons a) ih

theorem readSeq_eq_of_length {D : Type} (z : D) {n : Nat} {l : List D}
    (h : l.length = n) : readSeq z n l = l := by
  subst h
  exact readSeq_self z l

theorem readSeq_append_of_length {D : Type} (z : D) {n : Nat} {l : List D}
    (h : l.length = n) (r : List D) : readSeq z n (l ++ r) = l := by
  subst h
  have hmap : (List.range l.length).map (fun i => (l ++ r).getD i z)
      = (List.range l.length).map (fun i => l.getD i z) := by
    apply List.map_congr_left
    intro i hi
    rw [List.mem_range] at hi
    simp [List.getD_eq_getElem?_getD, List.getElem?_append_left hi]
  show (List.range l.length).map (fun i => (l ++ r).getD i z) = l
  rw [hmap]
  exact readSeq_self z l

/-! ### Helper lemmas about registries, `copyList` and `destroyList` -/

theorem getD_of_length_le {α : Type} {l : List α} {i : Nat} (d : α)
    (h : l.length ≤ i) : l.getD i d = d := by
  simp [List.getD_eq_getElem?_getD, List.getElem?_eq_none h]

theorem getD_append_left {α : Type} {l r : List α} {i : Nat} (d : α)
    (h : i < l.length) : (l ++ r).getD i d = l.getD i d := by
  simp [List.getD_eq_getElem?_getD, List.getElem?_append_left h]

theorem getD_append_self {α : Type} (l : List α) (a d : α) :
    (l ++ [a]).getD l.length d = a := by
  simp [List.getD_eq_getElem?_getD, List.getElem?_concat_length]

theorem getD_set_ne {α : Type} {l : List α} {i j : Nat} (a d : α) (h : i ≠ j) :
    (l.set i a).getD j d = l.getD j d := by
  simp [List.getD_eq_getElem?_getD, List.getElem?_set_ne h]

theorem getD_set_self {α : Type} {l : List α} {i : Nat} (a d : α)
    (h : i < l.length) : (l.set i a).getD i d = a := by
  simp [List.getD_eq_getElem?_getD, List.getElem?_set_self h]

theorem refsOf_cons_none (cs : List (Option Ctx)) :
    refsOf (none :: cs) = refsOf cs := rfl

theorem refsOf_cons_some (cx : Ctx) (cs : List (Option Ctx)) :
    refsOf (some cx :: cs) = cx.ref :: refsOf cs := rfl

theorem refsOf_append (a b : List (Option Ctx)) :
    refsOf (a ++ b) = refsOf a ++ refsOf b := by
  simp [refsOf, List.filterMap_append]

theorem mem_refsOf {cs : List (Option Ctx)} {t : Nat} :
    t ∈ refsOf cs ↔ ∃ cx : Ctx, some cx ∈ cs ∧ cx.ref = t := by
  simp only [refsOf, List.mem_filterMap, Option.map_eq_some']
  constructor
  · rintro ⟨c, hc, cx, hcx, rfl⟩
    exact ⟨cx, hcx ▸ hc, rfl⟩
  · rintro ⟨cx, hc, rfl⟩
    exact ⟨some cx, hc, cx, rfl, rfl⟩

theorem munge_on_copy_length_le {F D V : Type} (reg : Registry F D V)
    (c : Option Ctx) : reg.length ≤ (munge_on_copy reg c).1.length := by
  cases c <;> simp [munge_on_copy]

theorem munge_on_copy_getD_lt {F D V : Type} (reg : Registry F D V)
    (c : Option Ctx) {t : Nat} (ht : t < reg.length) :
    (munge_on_copy reg c).1.getD t none = reg.getD t none := by
  cases c with
  | none => rfl
  | some cx => exact getD_append_left none ht

theorem forall₂_copiedFrom_shift {F D V : Type} {regA regB R : Registry F D V} :
    ∀ {cs ds : List (Option Ctx)},
      List.Forall₂ (copiedFrom regA R) cs ds →
      (∀ t ∈ refsOf cs, regA.getD t none = regB.getD t none) →
      List.Forall₂ (copiedFrom regB R) cs ds := by
  intro cs ds h
  induction h with
  | nil => intro _; exact List.Forall₂.nil
  | @cons a b l1 l2 hrel _ ihh =>
      intro hag
      have htail : ∀ t ∈ refsOf l1, regA.getD t none = regB.getD t none := by
        intro t ht
        apply hag
        cases a with
        | none => exact ht
        | some a0 => rw [refsOf_cons_some]; exact List.mem_cons_of_mem _ ht
      refine List.Forall₂.cons ?_ (ihh htail)
      cases a with
      | none =>
          cases b with
          | none => trivial
          | some b0 => exact absurd hrel (by simp [copiedFrom])
      | some a0 =>
          cases b with
          | none => exact absurd hrel (by simp [copiedFrom])
          | some b0 =>
              show R.getD b0.ref none = (regB.getD a0.ref none).map copyRecord
              have ha0 : regA.getD a0.ref none = regB.getD a0.ref none := by
                apply hag
                rw [refsOf_cons_some]
                exact List.mem_cons_self _ _
              rw [← ha0]
              exact hrel

theorem copyList_spec {F D V : Type} (cs : List (Option Ctx)) :
    ∀ reg : Registry F D V,
      (∀ t ∈ refsOf cs, t < reg.length) →
      (∀ t, t < reg.length → (copyList reg cs).1.getD t none = reg.getD t none) ∧
      reg.length ≤ (copyList reg cs).1.length ∧
      (∀ c ∈ (copyList reg cs).2, ∀ cx : Ctx, c = some cx → reg.length ≤ cx.ref) ∧
      List.Forall₂ (copiedFrom reg (copyList reg cs).1) cs (copyList reg cs).2 := by
  induction cs with
  | nil =>
      intro reg _
      exact ⟨fun t _ => rfl, le_refl _, by simp [copyList], List.Forall₂.nil⟩
  | cons c cs ih =>
      intro reg hv
      have hvtail : ∀ t ∈ refsOf cs, t < reg.length := by
        intro t ht
        apply hv
        cases c with
        | none => exact ht
        | some cx => rw [refsOf_cons_some]; exact List.mem_cons_of_mem _ ht
      have hlen1 : reg.length ≤ (munge_on_copy reg c).1.length :=
        munge_on_copy_length_le reg c
      have hv1 : ∀ t ∈ refsOf cs, t < (munge_on_copy reg c).1.length := by
        intro t ht
        have := hvtail t ht
        omega
      obtain ⟨P1, P2, P3, P4⟩ := ih (munge_on_copy reg c).1 hv1
      have hstep : copyList reg (c :: cs)
          = ((copyList (munge_on_copy reg c).1 cs).1,
             (munge_on_copy reg c).2 :: (copyList (munge_on_copy reg c).1 cs).2) := rfl
      rw [hstep]
      refine ⟨?_, le_trans hlen1 P2, ?_, ?_⟩
      · intro t ht
        rw [P1 t (by omega)]
        exact munge_on_copy_getD_lt reg c ht
      · intro cc hcc cx hcx
        rcases List.mem_cons.mp hcc with hhead | htail
        · subst hhead
          cases c with
          | none => cases hcx
          | some c0 =>
              have hc : cx = (⟨reg.length⟩ : Ctx) := by
                have he : (munge_on_copy reg (some c0)).2 = some ⟨reg.length⟩ := rfl
                rw [he] at hcx
                exact Option.some_inj.mp hcx.symm
              rw [hc]
        · exact le_trans hlen1 (P3 cc htail cx hcx)
      · refine List.Forall₂.cons ?_ ?_
        · cases c with
          | none =>
              show copiedFrom reg (copyList (munge_on_copy reg none).1 cs).1 none none
              trivial
          | some c0 =>
              show (copyList (munge_on_copy reg (some c0)).1 cs).1.getD reg.length none
                = (reg.getD c0.ref none).map copyRecord
              rw [P1 reg.length (by simp [munge_on_copy])]
              show (reg ++ [(reg.getD c0.ref none).map copyRecord]).getD reg.length none
                = (reg.getD c0.ref none).map copyRecord
              exact getD_append_self reg _ none
        · refine forall₂_copiedFrom_shift P4 ?_
          intro t ht
          exact munge_on_copy_getD_lt reg c (hvtail t ht)

theorem destroyList_trace {F D V : Type} (cs : List (Option Ctx)) :
    ∀ reg : Registry F D V, (destroyList reg cs).2 = refsOf cs := by
  induction cs with
  | nil => intro reg; rfl
  | cons c cs ih =>
      intro reg
      cases c with
      | none =>
          show (destroyList (munge_on_destroy reg none) cs).2 = refsOf cs
          exact ih _
      | some cx =>
          show cx.ref :: (destroyList (munge_on_destroy reg (some cx)) cs).2
            = cx.ref :: refsOf cs
          rw [ih]

theorem destroyList_length {F D V : Type} (cs : List (Option Ctx)) :
    ∀ reg : Registry F D V, (destroyList reg cs).1.length = reg.length := by
  induction cs with
  | nil => intro reg; rfl
  | cons c cs ih =>
      intro reg
      show (destroyList (munge_on_destroy reg c) cs).1.length = reg.length
      rw [ih]
      cases c with
      | none => rfl
      | some cx => simp [munge_on_destroy]

theorem destroyList_getD_not_mem {F D V : Type} (cs : List (Option Ctx)) :
    ∀ (reg : Registry F D V) (t : Nat), t ∉ refsOf cs →
      (destroyList reg cs).1.getD t none = reg.getD t none := by
  induction cs with
  | nil => intro reg t _; rfl
  | cons c cs ih =>
      intro reg t ht
      cases c with
      | none => exact ih reg t ht
      | some cx =>
          rw [refsOf_cons_some] at ht
          have hne : cx.ref ≠ t := fun he => ht (he ▸ List.mem_cons_self _ _)
          have htail : t ∉ refsOf cs := fun hm => ht (List.mem_cons_of_mem _ hm)
          show (destroyList (reg.set cx.ref none) cs).1.getD t none = reg.getD t none
          rw [ih _ t htail]
          exact getD_set_ne none none hne

theorem destroyList_getD_none_stable {F D V : Type} (cs : List (Option Ctx)) :
    ∀ (reg : Registry F D V) (t : Nat), reg.getD t none = none →
      (destroyList reg cs).1.getD t none = none := by
  induction cs with
  | nil => intro reg t h; exact h
  | cons c cs ih =>
      intro reg t h
      apply ih
      cases c with
      | none => exact h
      | some cx =>
          show (reg.set cx.ref none).getD t none = none
          by_cases he : cx.ref = t
          · subst he
            by_cases hlt : cx.ref < reg.length
            · exact getD_set_self none none hlt
            · rw [List.set_eq_of_length_le (by omega)]
              exact h
          · rw [getD_set_ne none none he]
            exact h

theorem destroyList_getD_mem {F D V : Type} (cs : List (Option Ctx)) :
    ∀ (reg : Registry F D V) (t : Nat), t ∈ refsOf cs → t < reg.length →
      (destroyList reg cs).1.getD t none = none := by
  induction cs with
  | nil => intro reg t ht _; cases ht
  | cons c cs ih =>
      intro reg t ht hlt
      cases c with
      | none => exact ih reg t ht hlt
      | some cx =>
          rw [refsOf_cons_some] at ht
          rcases List.mem_cons.mp ht with rfl | htail
          · show (destroyList (reg.set cx.ref none) cs).1.getD cx.ref none = none
            apply destroyList_getD_none_stable
            exact getD_set_self none none hlt
          · show (destroyList (reg.set cx.ref none) cs).1.getD t none = none
            exact ih _ t htail (by simpa using hlt)

theorem copyList_append {F D V : Type} (a b : List (Option Ctx)) :
    ∀ reg : Registry F D V,
      copyList reg (a ++ b)
        = ((copyList (copyList reg a).1 b).1,
           (copyList reg a).2 ++ (copyList (copyList reg a).1 b).2) := by
  induction a with
  | nil => intro reg; rfl
  | cons c a ih =>
      intro reg
      show ((copyList (munge_on_copy reg c).1 (a ++ b)).1,
            (munge_on_copy reg c).2 :: (copyList (munge_on_copy reg c).1 (a ++ b)).2)
        = _
      rw [ih (munge_on_copy reg c).1]
      rfl

theorem nlopt_copy_model_eq {F D V : Type} (reg : Registry F D V)
    (h : NLHandle F D V) :
    (nlopt_copy_model reg h).1 = (copyList reg (ctxList h)).1 ∧
    ctxList (nlopt_copy_model reg h).2 = (copyList reg (ctxList h)).2 := by
  have hc : copyList reg (ctxList h)
      = ((copyList (copyList (munge_on_copy reg h.objective).1 h.ineq).1 h.eq).1,
         (munge_on_copy reg h.objective).2 ::
           ((copyList (munge_on_copy reg h.objective).1 h.ineq).2 ++
            (copyList (copyList (munge_on_copy reg h.objective).1 h.ineq).1 h.eq).2)) := by
    show ((copyList (munge_on_copy reg h.objective).1 (h.ineq ++ h.eq)).1,
          (munge_on_copy reg h.objective).2 ::
            (copyList (munge_on_copy reg h.objective).1 (h.ineq ++ h.eq)).2) = _
    rw [copyList_append h.ineq h.eq (munge_on_copy reg h.objective).1]
  rw [hc]
  exact ⟨rfl, rfl⟩

/-- Claim C1: for a registered scalar objective or scalar constraint closure
whose host callable raises an error during a trampoline invocation, `func`
catches the failure at the `lua_pcall` boundary, returns exactly `0.0` (the
model's `z`) as the scalar result, leaves the native gradient buffer
unmodified, and returns normally. -/
theorem func_error_containment {D V : Type} (z : D) (n : Nat) (x : List D)
    (grad : Option (List D)) (rec : LuaRecord (HostFn D V) D V) (cb : HostFn D V)
    (hf : rec.f = some cb)
    (herr : cb n (funcXArg z rec n x) (funcGradArg z rec n grad) rec.f_data
      = CbResult.err) :
    (func z n x grad (some rec)).1 = z ∧ (func z n x grad (some rec)).2.1 = grad := by
  obtain ⟨f0, fd, x0, g0, r0⟩ := rec
  change f0 = some cb at hf
  subst hf
  show (funcFinish z n grad (some cb) fd
      (funcXArg z ⟨some cb, fd, x0, g0, r0⟩ n x)
      (funcGradArg z ⟨some cb, fd, x0, g0, r0⟩ n grad) r0
      (cb n (funcXArg z ⟨some cb, fd, x0, g0, r0⟩ n x)
        (funcGradArg z ⟨some cb, fd, x0, g0, r0⟩ n grad) fd)).1 = z ∧
    (funcFinish z n grad (some cb) fd
      (funcXArg z ⟨some cb, fd, x0, g0, r0⟩ n x)
      (funcGradArg z ⟨some cb, fd, x0, g0, r0⟩ n grad) r0
      (cb n (funcXArg z ⟨some cb, fd, x0, g0, r0⟩ n x)
        (funcGradArg z ⟨some cb, fd, x0, g0, r0⟩ n grad) fd)).2.1 = grad
  rw [herr]
  exact ⟨rfl, rfl⟩

/-- Witness for C1 at a concrete failing callable: the trampoline returns
`0` and hands back the native gradient buffer `[3, 4]` untouched. -/
theorem func_error_containment_witness :
    (func 0 2 [1, 2] (some [3, 4]) (some recErr)).1 = 0 ∧
    (func 0 2 [1, 2] (some [3, 4]) (some recErr)).2.1 = some [3, 4] :=
  func_error_containment 0 2 [1, 2] (some [3, 4]) recErr cbErr rfl rfl

/-- Claim C5: when the native side supplies no gradient buffer, the host
callable is invoked with `nil` as its gradient argument (never an empty or
stale sequence), the closure's scratch gradient slot is cleared for that
call, and no native gradient buffer exists to be written. -/
theorem func_no_gradient {D V : Type} (z : D) (n : Nat) (x : List D)
    (rec : LuaRecord (HostFn D V) D V) (cb : HostFn D V)
    (hf : rec.f = some cb) :
    funcGradArg z rec n (none : Option (List D)) = none ∧
    (func z n x none (some rec)).2.1 = none ∧
    ((func z n x none (some rec)).2.2).map (fun r => r.grad) = some none := by
  obtain ⟨f0, fd, x0, g0, r0⟩ := rec
  change f0 = some cb at hf
  subst hf
  refine ⟨rfl, ?_, ?_⟩
  · show (funcFinish z n none (some cb) fd
        (funcXArg z ⟨some cb, fd, x0, g0, r0⟩ n x) none r0
        (cb n (funcXArg z ⟨some cb, fd, x0, g0, r0⟩ n x) none fd)).2.1 = none
    cases cb n (funcXArg z ⟨some cb, fd, x0, g0, r0⟩ n x) none fd with
    | err => rfl
    | ok ret gradOut => rfl
  · show ((funcFinish z n none (some cb) fd
        (funcXArg z ⟨some cb, fd, x0, g0, r0⟩ n x) none r0
        (cb n (funcXArg z ⟨some cb, fd, x0, g0, r0⟩ n x) none fd)).2.2).map
          (fun r => r.grad) = some none
    cases cb n (funcXArg z ⟨some cb, fd, x0, g0, r0⟩ n x) none fd with
    | err => rfl
    | ok ret gradOut => rfl

/-- Witness for C5 at a concrete record with a stale gradient scratch slot:
the callable observes `nil`, the slot is cleared, no native buffer returned. -/
theorem func_no_gradient_witness :
    funcGradArg 0 recOk 2 (none : Option (List Int)) = none ∧
    (func 0 2 [1, 2] none (some recOk)).2.1 = none ∧
    ((func 0 2 [1, 2] none (some recOk)).2.2).map (fun r => r.grad) = some none :=
  func_no_gradient 0 2 [1, 2] recOk cbOk rfl

/-- Claim C2 (code bug): for a two-output vector constraint over dimension 1
with a native gradient buffer present, `mfunc` copies back all `m = 2`
results but only the first `n = 1` of the `m × n = 2` gradient entries the
callable wrote — the claimed full gradient write-back `[5, 6]` does not
happen; the native buffer ends as `[5, 20]`, keeping its stale second
entry. -/
theorem mfunc_grad_writeback_truncated :
    (mfunc 0 2 [0, 0] 1 [9] (some [10, 20]) (some mrecW)).1 = [1, 2] ∧
    (mfunc 0 2 [0, 0] 1 [9] (some [10, 20]) (some mrecW)).2.1 = some [5, 20] ∧
    some ([5, 20] : List Int) ≠ some [5, 6] := by
  refine ⟨by decide, by decide, by decide⟩

/-- Claim C6 (code bug): the tolerance-argument check of
`add_inequality_mconstraint`/`add_equality_mconstraint` is inverted — passing
a tolerance table of length `count` raises the argument error meant for
non-table values, while passing `nil` is accepted with a null tolerance
pointer. -/
theorem mconstraint_tolerance_table_rejected :
    add_inequality_mconstraint (0 : Int) ([] : Registry Unit Int Int) hEmpty 2 () 0
      (LuaArg.table [1, 2]) = .error (.argError 5 "expecting table or nil") ∧
    add_equality_mconstraint (0 : Int) ([] : Registry Unit Int Int) hEmpty 2 () 0
      (LuaArg.table [1, 2]) = .error (.argError 5 "expecting table or nil") ∧
    add_inequality_mconstraint (0 : Int) ([] : Registry Unit Int Int) hEmpty 2 () 0
      LuaArg.nil
      = .ok ([some ⟨some (), 0, none, none, none⟩],
          ⟨3, 2, none, [some ⟨0⟩], [], munge_on_destroy, munge_on_copy⟩, none) :=
  ⟨rfl, rfl, rfl⟩

/-- Claim C7: `create` raises the algorithm argument error for every id
outside `[0, numAlgorithms)` and the dimension argument error for every
negative dimension, both independently of (hence before) the native
allocation; it raises the out-of-memory error when native allocation fails,
returning no handle; and on success it returns a fresh handle with
`munge_on_destroy` and `munge_on_copy` installed. -/
theorem create_contract (F D V : Type) (numAlg alg n : Int) (allocOk : Bool) :
    (alg < 0 ∨ numAlg ≤ alg →
      create F D V numAlg allocOk alg n = .error .argErrorAlgorithm) ∧
    (0 ≤ alg → alg < numAlg → n < 0 →
      create F D V numAlg allocOk alg n = .error .argErrorDimension) ∧
    (0 ≤ alg → alg < numAlg → 0 ≤ n → allocOk = false →
      create F D V numAlg allocOk alg n = .error .outOfMemory) ∧
    (0 ≤ alg → alg < numAlg → 0 ≤ n → allocOk = true →
      create F D V numAlg allocOk alg n
        = .ok ⟨alg, n.toNat, none, [], [], munge_on_destroy, munge_on_copy⟩) := by
  refine ⟨?_, ?_, ?_, ?_⟩
  · intro h
    unfold create
    rw [if_pos h]
  · intro h1 h2 h3
    unfold create
    rw [if_neg (by omega), if_pos h3]
  · intro h1 h2 h3 h4
    unfold create
    rw [if_neg (by omega), if_neg (by omega), h4, if_neg (by simp)]
  · intro h1 h2 h3 h4
    unfold create
    rw [if_neg (by omega), if_neg (by omega), h4, if_pos rfl]

/-- Witness for C7 at concrete inputs (`numAlgorithms = 42`): id `-1`
rejected, dimension `-2` rejected, allocation failure surfaces as
out-of-memory, and a valid call yields the handle with the munge hooks. -/
theorem create_contract_witness :
    create Unit Int Int 42 true (-1) 2 = .error .argErrorAlgorithm ∧
    create Unit Int Int 42 true 3 (-2) = .error .argErrorDimension ∧
    create Unit Int Int 42 false 3 2 = .error .outOfMemory ∧
    create Unit Int Int 42 true 3 2
      = .ok ⟨3, 2, none, [], [], munge_on_destroy, munge_on_copy⟩ :=
  ⟨(create_contract Unit Int Int 42 (-1) 2 true).1 (Or.inl (by decide)),
   (create_contract Unit Int Int 42 3 (-2) true).2.1 (by decide) (by decide) (by decide),
   (create_contract Unit Int Int 42 3 2 false).2.2.1 (by decide) (by decide) (by decide) rfl,
   (create_contract Unit Int Int 42 3 2 true).2.2.2 (by decide) (by decide) (by decide) rfl⟩

/-- Claim C8: `optimize` reads entries `1..n` of the input sequence (its
outputs are determined by `readSeq z n tbl`), returns exactly the pair
(native status code, final objective value) in that order, and writes the
solution point back into entries `1..n` of the same sequence, leaving
entries past `n` untouched. -/
theorem optimize_contract {D : Type} (z : D)
    (natOpt : List D → Int × List D × D) (n : Nat) (tbl : List D) :
    (optimize z natOpt n tbl).1.1 = (natOpt (readSeq z n tbl)).1 ∧
    (optimize z natOpt n tbl).1.2 = (natOpt (readSeq z n tbl)).2.2 ∧
    readSeq z n (optimize z natOpt n tbl).2
      = readSeq z n (natOpt (readSeq z n tbl)).2.1 ∧
    (optimize z natOpt n tbl).2.drop n = tbl.drop n := by
  refine ⟨rfl, rfl, ?_, ?_⟩
  · show readSeq z n
        (overwrite tbl (readSeq z n (natOpt (readSeq z n tbl)).2.1))
      = readSeq z n (natOpt (readSeq z n tbl)).2.1
    unfold overwrite
    exact readSeq_append_of_length z (readSeq_length z n _) _
  · show (overwrite tbl (readSeq z n (natOpt (readSeq z n tbl)).2.1)).drop n
      = tbl.drop n
    unfold overwrite
    rw [readSeq_length]
    exact List.drop_left' (readSeq_length z n _)

/-- Claim C9: for a handle of dimension `n` and a sequence of `n` values,
`setLowerBounds` then `getLowerBounds` returns exactly the stored values,
unchanged (no conversion happens anywhere on the path), and likewise for
upper bounds and absolute parameter tolerance. -/
theorem bounds_roundtrip {D : Type} (z : D) (s1 s2 s3 s4 s5 s6 : Int)
    (st : NativeVec D) (v w u : List D)
    (hv : v.length = st.dim) (hw : w.length = st.dim) (hu : u.length = st.dim) :
    (get_lower_bounds z s2 (set_lower_bounds z s1 st v).2).2 = v ∧
    (get_upper_bounds z s4 (set_upper_bounds z s3 st w).2).2 = w ∧
    (get_xtol_abs z s6 (set_xtol_abs z s5 st u).2).2 = u := by
  refine ⟨?_, ?_, ?_⟩
  · show readSeq z st.dim (readSeq z st.dim v) = v
    rw [readSeq_eq_of_length z hv, readSeq_eq_of_length z hv]
  · show readSeq z st.dim (readSeq z st.dim w) = w
    rw [readSeq_eq_of_length z hw, readSeq_eq_of_length z hw]
  · show readSeq z st.dim (readSeq z st.dim u) = u
    rw [readSeq_eq_of_length z hu, readSeq_eq_of_length z hu]

/-- Witness for C9 at dimension 2 with concrete vectors. -/
theorem bounds_roundtrip_witness :
    (get_lower_bounds 0 1 (set_lower_bounds 0 1 stW [3, 4]).2).2 = [3, 4] ∧
    (get_upper_bounds 0 1 (set_upper_bounds 0 1 stW [5, 6]).2).2 = [5, 6] ∧
    (get_xtol_abs 0 1 (set_xtol_abs 0 1 stW [7, 8]).2).2 = [7, 8] :=
  bounds_roundtrip 0 1 1 1 1 1 1 stW [3, 4] [5, 6] [7, 8]
    (by decide) (by decide) (by decide)

/-- Claim C10: `srand` raises a host-visible argument error for every
negative seed, and for every non-negative seed forwards the value unchanged
(the cast to `unsigned long` preserves it) and returns zero Lua values. -/
theorem srand_contract (i : Int) :
    (i < 0 → srand i = .error (.argError 1 "expecting unsigned long")) ∧
    (0 ≤ i → srand i = .ok (i.toNat, 0) ∧ (i.toNat : Int) = i) := by
  constructor
  · intro h
    unfold srand
    rw [if_pos h]
  · intro h
    refine ⟨?_, Int.toNat_of_nonneg h⟩
    unfold srand
    rw [if_neg (by omega)]

/-- Witness for C10: seed `-1` rejected, seed `5` forwarded as `5` with zero
return values. -/
theorem srand_contract_witness :
    srand (-1) = .error (.argError 1 "expecting unsigned long") ∧
    srand 5 = .ok (5, 0) :=
  ⟨(srand_contract (-1)).1 (by decide), ((srand_contract 5).2 (by decide)).1⟩

theorem mem_refsOf_cons {c : Option Ctx} {cs : List (Option Ctx)} {t : Nat}
    (h : t ∈ refsOf cs) : t ∈ refsOf (c :: cs) := by
  cases c with
  | none => exact h
  | some cx => rw [refsOf_cons_some]; exact List.mem_cons_of_mem _ h

/-- Claim C3: duplicating a handle re-registers every attached closure under
a freshly allocated record with its own new durable token — never one shared
with the source handle or any live token — into which the callable and
user-data references of the source record are copied (`copiedFrom` via
`copyRecord`); the source registry slots are untouched, and subsequently
releasing the source handle's closures (destroying it, or clearing its
inequality-constraint list) leaves every slot of the copy unchanged and
independently invokable. -/
theorem copy_closure_isolation {F D V : Type} (reg : Registry F D V)
    (h : NLHandle F D V)
    (hvalid : ∀ t ∈ refsOf (ctxList h), t < reg.length) :
    (∀ c ∈ ctxList (nlopt_copy_model reg h).2, ∀ cx : Ctx, c = some cx →
        reg.length ≤ cx.ref ∧ cx.ref ∉ refsOf (ctxList h)) ∧
    (∀ t, t < reg.length →
        (nlopt_copy_model reg h).1.getD t none = reg.getD t none) ∧
    List.Forall₂ (copiedFrom reg (nlopt_copy_model reg h).1)
      (ctxList h) (ctxList (nlopt_copy_model reg h).2) ∧
    (∀ t ∈ refsOf (ctxList (nlopt_copy_model reg h).2),
        (destroyList (nlopt_copy_model reg h).1 (ctxList h)).1.getD t none
          = (nlopt_copy_model reg h).1.getD t none) ∧
    (∀ t ∈ refsOf (ctxList (nlopt_copy_model reg h).2),
        (destroyList (nlopt_copy_model reg h).1 h.ineq).1.getD t none
          = (nlopt_copy_model reg h).1.getD t none) := by
  obtain ⟨E1, E2⟩ := nlopt_copy_model_eq reg h
  obtain ⟨P1, P2, P3, P4⟩ := copyList_spec (ctxList h) reg hvalid
  have hfresh : ∀ t ∈ refsOf (ctxList (nlopt_copy_model reg h).2),
      reg.length ≤ t := by
    intro t ht
    rw [E2] at ht
    obtain ⟨cx, hc, rfl⟩ := mem_refsOf.mp ht
    exact P3 _ hc cx rfl
  refine ⟨?_, ?_, ?_, ?_, ?_⟩
  · intro c hc cx hcx
    rw [E2] at hc
    have hge := P3 c hc cx hcx
    refine ⟨hge, fun hmem => ?_⟩
    have := hvalid _ hmem
    omega
  · intro t ht
    rw [E1]
    exact P1 t ht
  · rw [E1, E2]
    exact P4
  · intro t ht
    apply destroyList_getD_not_mem
    intro hmem
    have h1 := hvalid _ hmem
    have h2 := hfresh t ht
    omega
  · intro t ht
    apply destroyList_getD_not_mem
    intro hmem
    have hmem2 : t ∈ refsOf (ctxList h) := by
      show t ∈ refsOf (h.objective :: (h.ineq ++ h.eq))
      exact mem_refsOf_cons (by rw [refsOf_append]; exact List.mem_append_left _ hmem)
    have h1 := hvalid _ hmem2
    have h2 := hfresh t ht
    omega

/-- Witness for C3 on a three-closure handle over a three-record registry:
the source slot at token `1` is untouched by the copy, and destroying the
source afterwards leaves the copy's slot at the fresh token `4` unchanged. -/
theorem copy_closure_isolation_witness :
    ((nlopt_copy_model regW hW).1.getD 1 none = regW.getD 1 none) ∧
    ((destroyList (nlopt_copy_model regW hW).1 (ctxList hW)).1.getD 4 none
      = (nlopt_copy_model regW hW).1.getD 4 none) :=
  ⟨(copy_closure_isolation regW hW (by decide)).2.1 1 (by decide),
   (copy_closure_isolation regW hW (by decide)).2.2.2.1 4 (by decide)⟩

/-- Claim C4: destroying a handle (its finalizer running `nlopt_destroy`)
releases the durable registration of every attached closure exactly once —
the release trace lists exactly the handle's tokens, without repetition —
frees each affected record's slot, and touches no slot of any unaffected
closure; clearing the inequality constraint list, and likewise clearing the
equality constraint list, releases exactly its own closures' registrations,
touches no other slot, and empties that list. -/
theorem destroy_release_exactly_once {F D V : Type} (reg : Registry F D V)
    (h : NLHandle F D V)
    (hvalid : ∀ t ∈ refsOf (ctxList h), t < reg.length)
    (hnodup : (refsOf (ctxList h)).Nodup) :
    (nlopt_destroy_model reg h).2 = refsOf (ctxList h) ∧
    ((nlopt_destroy_model reg h).2).Nodup ∧
    (∀ t ∈ refsOf (ctxList h), (nlopt_destroy_model reg h).1.getD t none = none) ∧
    (∀ t, t ∉ refsOf (ctxList h) →
        (nlopt_destroy_model reg h).1.getD t none = reg.getD t none) ∧
    (remove_inequality_constraints_model reg h).1.2 = refsOf h.ineq ∧
    (∀ t ∈ refsOf h.ineq,
        (remove_inequality_constraints_model reg h).1.1.getD t none = none) ∧
    (∀ t, t ∉ refsOf h.ineq →
        (remove_inequality_constraints_model reg h).1.1.getD t none
          = reg.getD t none) ∧
    ((remove_inequality_constraints_model reg h).2).ineq = [] ∧
    (remove_equality_constraints_model reg h).1.2 = refsOf h.eq ∧
    (∀ t ∈ refsOf h.eq,
        (remove_equality_constraints_model reg h).1.1.getD t none = none) ∧
    (∀ t, t ∉ refsOf h.eq →
        (remove_equality_constraints_model reg h).1.1.getD t none
          = reg.getD t none) ∧
    ((remove_equality_constraints_model reg h).2).eq = [] := by
  refine ⟨destroyList_trace _ reg, ?_, ?_, ?_, destroyList_trace _ reg, ?_, ?_, rfl,
    destroyList_trace _ reg, ?_, ?_, rfl⟩
  · show ((destroyList reg (ctxList h)).2).Nodup
    rw [destroyList_trace _ reg]
    exact hnodup
  · intro t ht
    exact destroyList_getD_mem _ reg t ht (hvalid t ht)
  · intro t ht
    exact destroyList_getD_not_mem _ reg t ht
  · intro t ht
    apply destroyList_getD_mem _ reg t ht
    apply hvalid
    show t ∈ refsOf (h.objective :: (h.ineq ++ h.eq))
    exact mem_refsOf_cons (by rw [refsOf_append]; exact List.mem_append_left _ ht)
  · intro t ht
    exact destroyList_getD_not_mem _ reg t ht
  · intro t ht
    apply destroyList_getD_mem _ reg t ht
    apply hvalid
    show t ∈ refsOf (h.objective :: (h.ineq ++ h.eq))
    exact mem_refsOf_cons (by rw [refsOf_append]; exact List.mem_append_right _ ht)
  · intro t ht
    exact destroyList_getD_not_mem _ reg t ht

/-- Witness for C4 on a three-closure handle over a three-record registry:
the destruction trace is exactly the token list `[0, 1, 2]`, the slot at
token `1` is freed by destruction, and clearing the equality constraint list
frees the slot at its token `2`. -/
theorem destroy_release_exactly_once_witness :
    (nlopt_destroy_model regW hW).2 = refsOf (ctxList hW) ∧
    (nlopt_destroy_model regW hW).1.getD 1 none = none ∧
    (remove_equality_constraints_model regW hW).1.1.getD 2 none = none :=
  ⟨(destroy_release_exactly_once regW hW (by decide) (by decide)).1,
   (destroy_release_exactly_once regW hW (by decide) (by decide)).2.2.1 1 (by decide),
   (destroy_release_exactly_once regW hW (by decide)
      (by decide)).2.2.2.2.2.2.2.2.2.1 2 (by decide)⟩

end LuaNLopt
